import Mathlib

/-!
Verification of the CSV year-range validator (`scripts/validateTranscriptCsv.mjs`).

The development shallowly embeds the validation core: the `parseType` range
parser, the per-row classifier from `main`, the per-school gap/overlap
reconciler, and the `reportAndExit` issue reporter.  Strings are modelled as
`List Char`; the wall-clock value `currentYear` is passed as an explicit
parameter; JavaScript's stable `Array.prototype.sort` is modelled by the
stable `List.insertionSort`.
-/

namespace TranscriptCsv

/-- The JavaScript whitespace class used by `\s` and `String.prototype.trim`
(restricted to its ASCII members, the only ones relevant here). -/
def isWS (c : Char) : Bool :=
  c = ' ' || c = '\t' || c = '\n' || c = '\r' || c = '\x0b' || c = '\x0c'

/-- `String.prototype.trim`: drop whitespace from both ends. -/
def jsTrim (t : List Char) : List Char :=
  ((t.dropWhile isWS).reverse.dropWhile isWS).reverse

/-- Numeric value of a decimal digit character. -/
def digitVal (c : Char) : Nat := c.toNat - 48

/-- The regex character class `\d`. -/
def isDigitCh (c : Char) : Bool := 48 ≤ c.toNat && c.toNat ≤ 57

/-- Match the regex fragment `(\d{4})` at the head of the input: four decimal
digits, returning their value (`Number.parseInt`) and the rest of the input. -/
def take4Digits : List Char → Option (Nat × List Char)
  | a :: b :: c :: d :: rest =>
    if isDigitCh a && isDigitCh b && isDigitCh c && isDigitCh d then
      some (((digitVal a * 10 + digitVal b) * 10 + digitVal c) * 10 + digitVal d, rest)
    else none
  | _ => none

/-- ASCII lower-casing, the case folding relevant to the source's patterns. -/
def lcase (c : Char) : Char :=
  if 65 ≤ c.toNat ∧ c.toNat ≤ 90 then Char.ofNat (c.toNat + 32) else c

/-- Case-insensitive character comparison, as under the regex `i` flag. -/
def ciEq (c p : Char) : Bool := lcase c = lcase p

/-- Strip a case-insensitive literal word from the head of the input,
returning the remainder on success. -/
def stripCI : List Char → List Char → Option (List Char)
  | [], t => some t
  | _ :: _, [] => none
  | p :: ps, c :: cs => if ciEq c p then stripCI ps cs else none

def presentWord : List Char := "present".toList

def inWord : List Char := "in".toList

def schoolWord : List Char := "school".toList

def beforeWord : List Char := "before".toList

/-- The anchored regex `^(\d{4})\s*-\s*(\d{4}|present)$` (flag `i`): on a match,
`some (y1, some y2)` for a second four-digit year, `some (y1, none)` for the
literal `present`. -/
def matchBounded (t : List Char) : Option (Nat × Option Nat) :=
  match take4Digits t with
  | none => none
  | some (y1, r1) =>
    match r1.dropWhile isWS with
    | '-' :: r2 =>
      let r3 := r2.dropWhile isWS
      match take4Digits r3 with
      | some (y2, []) => some (y1, some y2)
      | _ =>
        match stripCI presentWord r3 with
        | some [] => some (y1, none)
        | _ => none
    | _ => none

/-- Match the regex fragment `\s+` at the head of the input (greedily, as the
regex engine does before a following non-whitespace literal). -/
def stripWS1 : List Char → Option (List Char)
  | c :: cs => if isWS c then some (cs.dropWhile isWS) else none
  | [] => none

/-- The anchored regex `^In\s+School\s+Before\s+(\d{4})$` (flag `i`),
returning the captured year's value. -/
def matchBefore (t : List Char) : Option Nat :=
  (stripCI inWord t).bind fun r1 =>
    (stripWS1 r1).bind fun r2 =>
      (stripCI schoolWord r2).bind fun r3 =>
        (stripWS1 r3).bind fun r4 =>
          (stripCI beforeWord r4).bind fun r5 =>
            (stripWS1 r5).bind fun r6 =>
              match take4Digits r6 with
              | some (y, []) => some y
              | _ => none

/-- A normalized inclusive year interval, the result of `parseType`. -/
structure YearRange where
  start : Nat
  endYear : Nat
deriving DecidableEq, Repr

/-- The source's `parseType(rawType)`.  `cy` is the module-level `currentYear`
(`new Date().getFullYear()`), passed explicitly. -/
def parseType (cy : Nat) (rawType : List Char) : Option YearRange :=
  let trimmed := jsTrim rawType
  match matchBounded trimmed with
  | some (s, e) =>
    let endv := match e with
      | none => cy
      | some y => y
    if s ≤ endv then some ⟨s, endv⟩ else none
  | none =>
    match matchBefore trimmed with
    | some e => if 1900 ≤ e then some ⟨1900, e⟩ else none
    | none => none

/-- One record of `rangesBySchool`: `{line, start, end, rawType, link}`. -/
structure SchoolFact where
  line : Nat
  start : Nat
  endYear : Nat
  rawType : List Char
  link : List Char
deriving DecidableEq, Repr

/-- An entry of `issues.missingSchoolName`. -/
structure NameIssue where
  line : Nat
deriving DecidableEq, Repr

/-- An entry of `issues.missingLink`. -/
structure LinkIssue where
  line : Nat
  schoolName : List Char
  type : List Char
deriving DecidableEq, Repr

/-- An entry of `issues.missingType`. -/
structure TypeIssue where
  line : Nat
  schoolName : List Char
deriving DecidableEq, Repr

/-- An entry of `issues.invalidType`. -/
structure InvalidIssue where
  line : Nat
  schoolName : List Char
  type : List Char
deriving DecidableEq, Repr

/-- An entry of `issues.gaps`. -/
structure GapIssue where
  schoolName : List Char
  fromYear : Nat
  toYear : Nat
  prevLine : Nat
  currLine : Nat
deriving DecidableEq, Repr

/-- An entry of `issues.overlaps`. -/
structure OverlapIssue where
  schoolName : List Char
  overlapStart : Nat
  overlapEnd : Nat
  prevLine : Nat
  currLine : Nat
deriving DecidableEq, Repr

/-- The `issues` accumulator object of `main`. -/
structure Issues where
  missingSchoolName : List NameIssue
  missingLink : List LinkIssue
  missingType : List TypeIssue
  invalidType : List InvalidIssue
  gaps : List GapIssue
  overlaps : List OverlapIssue
deriving DecidableEq, Repr

def Issues.empty : Issues := ⟨[], [], [], [], [], []⟩

/-- `Map.prototype.get`, on the association-list model of `rangesBySchool`. -/
def mapGet (m : List (List Char × List SchoolFact)) (k : List Char) :
    Option (List SchoolFact) :=
  match m with
  | [] => none
  | (k1, v) :: rest => if k1 = k then some v else mapGet rest k

/-- `Map.prototype.set`: update an existing key in place, else append. -/
def mapSet (m : List (List Char × List SchoolFact)) (k : List Char)
    (v : List SchoolFact) : List (List Char × List SchoolFact) :=
  match m with
  | [] => [(k, v)]
  | (k1, v1) :: rest => if k1 = k then (k, v) :: rest else (k1, v1) :: mapSet rest k v

/-- One raw data row: the three named text fields of the CSV. -/
structure Row where
  schoolName : List Char
  link : List Char
  type : List Char

/-- The mutable state threaded through the row loop of `main`. -/
structure ScanState where
  issues : Issues
  ranges : List (List Char × List SchoolFact)

def ScanState.empty : ScanState := ⟨Issues.empty, []⟩

/-- The body of `rows.forEach` in `main`: classify one row at the given
1-based report line number (`rowNumber`), mutating the accumulators. -/
def classifyRow (cy : Nat) (rowNumber : Nat) (row : Row) (st : ScanState) :
    ScanState :=
  let schoolName := jsTrim row.schoolName
  let link := jsTrim row.link
  let type := jsTrim row.type
  if schoolName = [] then
    { st with issues.missingSchoolName := st.issues.missingSchoolName ++ [⟨rowNumber⟩] }
  else
    let st1 :=
      if link = [] then
        { st with issues.missingLink := st.issues.missingLink ++ [⟨rowNumber, schoolName, type⟩] }
      else st
    if type = [] then
      { st1 with issues.missingType := st1.issues.missingType ++ [⟨rowNumber, schoolName⟩] }
    else
      match parseType cy type with
      | none =>
        { st1 with issues.invalidType := st1.issues.invalidType ++ [⟨rowNumber, schoolName, type⟩] }
      | some pr =>
        let existing := (mapGet st1.ranges schoolName).getD []
        let updated := mapSet st1.ranges schoolName
          (existing ++ [⟨rowNumber, pr.start, pr.endYear, type, link⟩])
        { st1 with ranges := updated }

/-- The row loop of `main`, carrying the 0-based `forEach` index: each row is
classified at `rowNumber = index + 2`. -/
def processRowsAux (cy : Nat) : Nat → List Row → ScanState → ScanState
  | _, [], st => st
  | idx, r :: rs, st => processRowsAux cy (idx + 1) rs (classifyRow cy (idx + 2) r st)

/-- Classify every row, starting from empty accumulators. -/
def processRows (cy : Nat) (rows : List Row) : ScanState :=
  processRowsAux cy 0 rows ScanState.empty

/-- The sort comparator `(a, b) => a.start - b.start || a.end - b.end`,
as a relation: ascending by start year, then by end year. -/
def factLe (a b : SchoolFact) : Prop :=
  a.start < b.start ∨ (a.start = b.start ∧ a.endYear ≤ b.endYear)

instance : DecidableRel factLe := fun a b => by
  unfold factLe; infer_instance

instance : IsTotal SchoolFact factLe :=
  ⟨fun a b => by unfold factLe; omega⟩

instance : IsTrans SchoolFact factLe :=
  ⟨fun a b c h1 h2 => by unfold factLe at *; omega⟩

/-- `ranges.sort((a, b) => a.start - b.start || a.end - b.end)`: JavaScript's
sort is stable, modelled by the stable `List.insertionSort`. -/
def sortFacts (l : List SchoolFact) : List SchoolFact :=
  List.insertionSort factLe l

/-- The pairwise walk of the sorted fact list in `main`: for each adjacent
pair `(prev, curr)` push a gap when `curr.start > prev.end + 1`, else an
overlap when `curr.start <= prev.end`. -/
def walkRanges (schoolName : List Char) :
    SchoolFact → List SchoolFact → List GapIssue × List OverlapIssue
  | _, [] => ([], [])
  | prev, curr :: rest =>
    let tailIssues := walkRanges schoolName curr rest
    if prev.endYear + 1 < curr.start then
      (⟨schoolName, prev.endYear + 1, curr.start - 1, prev.line, curr.line⟩ :: tailIssues.1,
       tailIssues.2)
    else if curr.start ≤ prev.endYear then
      (tailIssues.1,
       ⟨schoolName, curr.start, min prev.endYear curr.endYear, prev.line, curr.line⟩ :: tailIssues.2)
    else tailIssues

/-- The per-school reconciliation of `main`: sort the fact list, then walk
adjacent pairs collecting gaps and overlaps. -/
def reconcileSchool (schoolName : List Char) (facts : List SchoolFact) :
    List GapIssue × List OverlapIssue :=
  match sortFacts facts with
  | [] => ([], [])
  | f :: rest => walkRanges schoolName f rest

/-- The category headers printed by `reportAndExit`, in source order. -/
inductive SectionTag where
  | missingNames
  | missingLinks
  | missingTypes
  | invalidTypes
  | gapSpans
  | overlapSpans
deriving DecidableEq, Repr

/-- `reportAndExit`: emit one section per non-empty issue category, in the
source's fixed order, and report whether any issue was seen (`hasIssues`). -/
def reportAndExit (issues : Issues) : List SectionTag × Bool :=
  let acc : List SectionTag × Bool := ([], false)
  let acc := if 0 < issues.missingSchoolName.length
    then (acc.1 ++ [SectionTag.missingNames], true) else acc
  let acc := if 0 < issues.missingLink.length
    then (acc.1 ++ [SectionTag.missingLinks], true) else acc
  let acc := if 0 < issues.missingType.length
    then (acc.1 ++ [SectionTag.missingTypes], true) else acc
  let acc := if 0 < issues.invalidType.length
    then (acc.1 ++ [SectionTag.invalidTypes], true) else acc
  let acc := if 0 < issues.gaps.length
    then (acc.1 ++ [SectionTag.gapSpans], true) else acc
  let acc := if 0 < issues.overlaps.length
    then (acc.1 ++ [SectionTag.overlapSpans], true) else acc
  acc

/-- The run's boolean overall-success flag: no issue category was non-empty. -/
def successFlag (issues : Issues) : Bool := !(reportAndExit issues).2

/-- The process exit status determined by `reportAndExit`. -/
def exitCode (issues : Issues) : Nat :=
  if (reportAndExit issues).2 then 1 else 0

/-- Whether a given report section's issue category is non-empty. -/
def sectionNonempty (issues : Issues) : SectionTag → Bool
  | SectionTag.missingNames => 0 < issues.missingSchoolName.length
  | SectionTag.missingLinks => 0 < issues.missingLink.length
  | SectionTag.missingTypes => 0 < issues.missingType.length
  | SectionTag.invalidTypes => 0 < issues.invalidType.length
  | SectionTag.gapSpans => 0 < issues.gaps.length
  | SectionTag.overlapSpans => 0 < issues.overlaps.length

/-! ### Character-class lemmas -/

theorem ws_cases {c : Char} (h : isWS c = true) :
    c = ' ' ∨ c = '\t' ∨ c = '\n' ∨ c = '\r' ∨ c = '\x0b' ∨ c = '\x0c' := by
  simp only [isWS, Bool.or_eq_true, decide_eq_true_eq] at h
  tauto

theorem digit_false_of_ws {c : Char} (h : isWS c = true) : isDigitCh c = false := by
  rcases ws_cases h with h | h | h | h | h | h <;> subst h <;> decide

theorem not_ws_of_digit {c : Char} (h : isDigitCh c = true) : isWS c = false := by
  cases hws : isWS c
  · rfl
  · rw [digit_false_of_ws hws] at h
    simp at h

theorem ws_lcase_self {c : Char} (h : isWS c = true) : lcase c = c := by
  rcases ws_cases h with h | h | h | h | h | h <;> subst h <;> decide

theorem not_ws_of_ciEq {c p : Char} (h : ciEq c p = true) (hp : isWS (lcase p) = false) :
    isWS c = false := by
  cases hws : isWS c
  · rfl
  · exfalso
    have hc : lcase c = lcase p := by simpa [ciEq] using h
    rw [ws_lcase_self hws] at hc
    rw [hc] at hws
    rw [hp] at hws
    simp at hws

theorem digit_bounds {c : Char} (h : isDigitCh c = true) :
    48 ≤ c.toNat ∧ c.toNat ≤ 57 := by
  simpa [isDigitCh, Bool.and_eq_true, decide_eq_true_eq] using h

theorem digit_lcase_self {c : Char} (h : isDigitCh c = true) : lcase c = c := by
  have hb := digit_bounds h
  unfold lcase
  rw [if_neg]
  omega

theorem not_digit_of_ciEq {c p : Char} (h : ciEq c p = true)
    (hp : isDigitCh (lcase p) = false) : isDigitCh c = false := by
  cases hd : isDigitCh c
  · rfl
  · exfalso
    have hc : lcase c = lcase p := by simpa [ciEq] using h
    rw [digit_lcase_self hd] at hc
    rw [hc] at hd
    rw [hp] at hd
    simp at hd

/-! ### List helpers -/

theorem dropWhile_append_allWS {w l : List Char} (h : ∀ c ∈ w, isWS c = true) :
    (w ++ l).dropWhile isWS = l.dropWhile isWS := by
  induction w with
  | nil => rfl
  | cons c cs ih =>
    have hc : isWS c = true := h c (List.mem_cons_self c cs)
    simp only [List.cons_append, List.dropWhile_cons, hc, if_true]
    exact ih fun x hx => h x (List.mem_cons_of_mem c hx)

theorem dropWhile_headNotWS {l : List Char}
    (h : ∀ c cs, l = c :: cs → isWS c = false) : l.dropWhile isWS = l := by
  cases l with
  | nil => rfl
  | cons c cs =>
    rw [List.dropWhile_cons, h c cs rfl]
    simp

/-! ### Association-list (Map) lemmas -/

theorem mapGet_mapSet_self (m : List (List Char × List SchoolFact)) (k : List Char)
    (v : List SchoolFact) : mapGet (mapSet m k v) k = some v := by
  induction m with
  | nil => simp [mapSet, mapGet]
  | cons p rest ih =>
    obtain ⟨k1, v1⟩ := p
    by_cases h : k1 = k
    · subst h
      simp [mapSet, mapGet]
    · simp [mapSet, mapGet, h, ih]

theorem mapGet_mapSet_ne (m : List (List Char × List SchoolFact)) (k k1 : List Char)
    (v : List SchoolFact) (h : k1 ≠ k) : mapGet (mapSet m k v) k1 = mapGet m k1 := by
  have hk : ¬(k = k1) := fun hh => h hh.symm
  induction m with
  | nil => simp [mapSet, mapGet, hk]
  | cons p rest ih =>
    obtain ⟨k2, v2⟩ := p
    by_cases h2 : k2 = k
    · subst h2
      simp [mapSet, mapGet, hk]
    · by_cases h3 : k2 = k1
      · subst h3
        simp [mapSet, mapGet, h2]
      · simp [mapSet, mapGet, h2, h3, ih]

/-- `parseType` rejects the empty string. -/
theorem parseType_nil (cy : Nat) : parseType cy [] = none := rfl

/-! ### Claims C7, C6, C8 -/

/-- C7: a row whose school name trims to empty records exactly one
missingSchoolName issue carrying its line number, and nothing else for that
row: every other issue category and the fact map are untouched, regardless of
the row's link and type fields. -/
theorem missingName_short_circuits (cy rowNumber : Nat) (row : Row) (st : ScanState)
    (h : jsTrim row.schoolName = []) :
    classifyRow cy rowNumber row st =
      { st with issues :=
          { st.issues with missingSchoolName := st.issues.missingSchoolName ++ [⟨rowNumber⟩] } } := by
  simp only [classifyRow]
  rw [if_pos h]

theorem missingName_short_circuits_witness :
    jsTrim " ".toList = [] ∧
    classifyRow 2026 2 ⟨" ".toList, "x".toList, "2000-2001".toList⟩ ScanState.empty =
      { ScanState.empty with issues :=
          { ScanState.empty.issues with missingSchoolName :=
              ScanState.empty.issues.missingSchoolName ++ [⟨2⟩] } } :=
  ⟨by decide,
   missingName_short_circuits 2026 2 ⟨" ".toList, "x".toList, "2000-2001".toList⟩
     ScanState.empty (by decide)⟩

/-- C6: a row with a non-empty school name, an empty link, and a type text
that parses successfully both records a missingLink issue (line, school name,
type) and still contributes a SchoolFact to the school's list — link absence
does not stop processing of the row. -/
theorem missingLink_nonfatal (cy rowNumber : Nat) (row : Row) (st : ScanState)
    (pr : YearRange)
    (hname : jsTrim row.schoolName ≠ [])
    (hlink : jsTrim row.link = [])
    (hparse : parseType cy (jsTrim row.type) = some pr) :
    (classifyRow cy rowNumber row st).issues.missingLink =
      st.issues.missingLink ++ [⟨rowNumber, jsTrim row.schoolName, jsTrim row.type⟩] ∧
    mapGet (classifyRow cy rowNumber row st).ranges (jsTrim row.schoolName) =
      some ((mapGet st.ranges (jsTrim row.schoolName)).getD [] ++
        [⟨rowNumber, pr.start, pr.endYear, jsTrim row.type, jsTrim row.link⟩]) := by
  have htype : jsTrim row.type ≠ [] := by
    intro h0
    rw [h0, parseType_nil] at hparse
    cases hparse
  simp only [classifyRow]
  rw [if_neg hname, if_pos hlink, if_neg htype, hparse]
  exact ⟨rfl, mapGet_mapSet_self _ _ _⟩

theorem missingLink_nonfatal_witness :
    (jsTrim "A".toList ≠ [] ∧ jsTrim "".toList = [] ∧
      parseType 2026 (jsTrim "2000-2005".toList) = some ⟨2000, 2005⟩) ∧
    ((classifyRow 2026 2 ⟨"A".toList, "".toList, "2000-2005".toList⟩ ScanState.empty).issues.missingLink =
        ScanState.empty.issues.missingLink ++
          [⟨2, jsTrim "A".toList, jsTrim "2000-2005".toList⟩] ∧
      mapGet (classifyRow 2026 2 ⟨"A".toList, "".toList, "2000-2005".toList⟩ ScanState.empty).ranges
          (jsTrim "A".toList) =
        some ((mapGet ScanState.empty.ranges (jsTrim "A".toList)).getD [] ++
          [⟨2, 2000, 2005, jsTrim "2000-2005".toList, jsTrim "".toList⟩])) :=
  ⟨⟨by decide, by decide, by decide⟩,
   missingLink_nonfatal 2026 2 ⟨"A".toList, "".toList, "2000-2005".toList⟩ ScanState.empty
     ⟨2000, 2005⟩ (by decide) (by decide) (by decide)⟩

set_option maxHeartbeats 1600000 in
/-- C8: the run's overall success flag is true iff every issue category is
empty; any non-empty category — including missingLink alone — yields exit
status 1; and the report renders the categories in the fixed source order. -/
theorem report_success_iff (issues : Issues) :
    (successFlag issues = true ↔
      issues.missingSchoolName = [] ∧ issues.missingLink = [] ∧
      issues.missingType = [] ∧ issues.invalidType = [] ∧
      issues.gaps = [] ∧ issues.overlaps = []) ∧
    (exitCode issues = 1 ↔ successFlag issues = false) ∧
    (reportAndExit issues).1 =
      [SectionTag.missingNames, SectionTag.missingLinks, SectionTag.missingTypes,
        SectionTag.invalidTypes, SectionTag.gapSpans, SectionTag.overlapSpans].filter
        (sectionNonempty issues) := by
  obtain ⟨a, b, c, d, e, f⟩ := issues
  simp only [successFlag, exitCode, reportAndExit, sectionNonempty, List.filter_cons,
    List.filter_nil, decide_eq_true_eq]
  split_ifs <;> simp_all [List.length_pos]

/-! ### Claims C1, C2, C9, C10: per-school reconciliation -/

/-- The gap record the reconciler is due to produce for an adjacent sorted
pair, if any: one exactly when `curr.start > prev.end + 1`. -/
def gapAt (schoolName : List Char) (pc : SchoolFact × SchoolFact) : Option GapIssue :=
  if pc.1.endYear + 1 < pc.2.start then
    some ⟨schoolName, pc.1.endYear + 1, pc.2.start - 1, pc.1.line, pc.2.line⟩
  else none

/-- The overlap record the reconciler is due to produce for an adjacent sorted
pair, if any: one exactly when `curr.start <= prev.end`. -/
def overlapAt (schoolName : List Char) (pc : SchoolFact × SchoolFact) : Option OverlapIssue :=
  if pc.2.start ≤ pc.1.endYear then
    some ⟨schoolName, pc.2.start, min pc.1.endYear pc.2.endYear, pc.1.line, pc.2.line⟩
  else none

theorem walkRanges_fst (schoolName : List Char) (rest : List SchoolFact) :
    ∀ prev, (walkRanges schoolName prev rest).1 =
      ((prev :: rest).zip rest).filterMap (gapAt schoolName) := by
  induction rest with
  | nil => intro prev; simp [walkRanges]
  | cons curr rs ih =>
    intro prev
    by_cases h1 : prev.endYear + 1 < curr.start
    · simp [walkRanges, gapAt, h1, List.filterMap_cons, ih curr]
    · by_cases h2 : curr.start ≤ prev.endYear
      · simp [walkRanges, gapAt, h1, h2, List.filterMap_cons, ih curr]
      · simp [walkRanges, gapAt, h1, h2, List.filterMap_cons, ih curr]

theorem walkRanges_snd (schoolName : List Char) (rest : List SchoolFact) :
    ∀ prev, (walkRanges schoolName prev rest).2 =
      ((prev :: rest).zip rest).filterMap (overlapAt schoolName) := by
  induction rest with
  | nil => intro prev; simp [walkRanges]
  | cons curr rs ih =>
    intro prev
    by_cases h1 : prev.endYear + 1 < curr.start
    · have h2 : ¬(curr.start ≤ prev.endYear) := by omega
      simp [walkRanges, overlapAt, h1, h2, List.filterMap_cons, ih curr]
    · by_cases h2 : curr.start ≤ prev.endYear
      · simp [walkRanges, overlapAt, h1, h2, List.filterMap_cons, ih curr]
      · simp [walkRanges, overlapAt, h1, h2, List.filterMap_cons, ih curr]

/-- C1: over a school's facts sorted ascending by (start, end), a gap issue is
recorded for an adjacent pair (prev, curr) exactly when
`curr.start > prev.end + 1`, and it is exactly the record with
fromYear = prev.end + 1, toYear = curr.start - 1 and the two line numbers;
contiguous pairs (`curr.start = prev.end + 1`) record nothing. -/
theorem gap_reconciliation (schoolName : List Char) (facts : List SchoolFact) :
    (reconcileSchool schoolName facts).1 =
      ((sortFacts facts).zip (sortFacts facts).tail).filterMap (gapAt schoolName) := by
  unfold reconcileSchool
  cases h : sortFacts facts with
  | nil => simp
  | cons f rest => simpa using walkRanges_fst schoolName rest f

/-- C2: over a school's facts sorted ascending by (start, end), an overlap
issue is recorded for an adjacent pair (prev, curr) exactly when
`curr.start <= prev.end`, and it is exactly the record with
overlapStart = curr.start, overlapEnd = min(prev.end, curr.end) and the two
line numbers; moreover at most one of gap/overlap arises per adjacent pair. -/
theorem overlap_reconciliation (schoolName : List Char) (facts : List SchoolFact) :
    (reconcileSchool schoolName facts).2 =
      ((sortFacts facts).zip (sortFacts facts).tail).filterMap (overlapAt schoolName) ∧
    ∀ prev curr : SchoolFact,
      ¬((gapAt schoolName (prev, curr)).isSome = true ∧
        (overlapAt schoolName (prev, curr)).isSome = true) := by
  constructor
  · unfold reconcileSchool
    cases h : sortFacts facts with
    | nil => simp
    | cons f rest => simpa using walkRanges_snd schoolName rest f
  · intro prev curr ⟨hg, ho⟩
    unfold gapAt at hg
    unfold overlapAt at ho
    split_ifs at hg ho <;> first | omega | simp_all

/-- C9: re-running the reconciler on the same per-school fact set produces
identical gap and overlap output.  Between two runs the only state the first
run leaves behind is the in-place sorting of the fact array, so the second
run computes `reconcileSchool` of the sorted list; this equals the first
run's output.  (No wall-clock value enters the reconciler at all, so the
"present"-free proviso is automatic.) -/
theorem reconcile_idempotent (schoolName : List Char) (facts : List SchoolFact) :
    reconcileSchool schoolName (sortFacts facts) = reconcileSchool schoolName facts := by
  have h : sortFacts (sortFacts facts) = sortFacts facts :=
    List.Sorted.insertionSort_eq (List.sorted_insertionSort factLe facts)
  unfold reconcileSchool
  rw [show sortFacts (sortFacts facts) = sortFacts facts from h]

/-- C10: if every input fact satisfies start <= end, then every reported gap
satisfies fromYear <= toYear and every reported overlap satisfies
overlapStart <= overlapEnd. -/
theorem spans_well_ordered (schoolName : List Char) (facts : List SchoolFact)
    (h : ∀ f ∈ facts, f.start ≤ f.endYear) :
    (∀ g ∈ (reconcileSchool schoolName facts).1, g.fromYear ≤ g.toYear) ∧
    (∀ o ∈ (reconcileSchool schoolName facts).2, o.overlapStart ≤ o.overlapEnd) := by
  have hmem : ∀ f ∈ sortFacts facts, f.start ≤ f.endYear := by
    intro f hf
    exact h f ((List.mem_insertionSort factLe).mp hf)
  have hgaps : (reconcileSchool schoolName facts).1 =
      ((sortFacts facts).zip (sortFacts facts).tail).filterMap (gapAt schoolName) := by
    unfold reconcileSchool
    cases hs : sortFacts facts with
    | nil => simp
    | cons f rest => simpa using walkRanges_fst schoolName rest f
  have hovers : (reconcileSchool schoolName facts).2 =
      ((sortFacts facts).zip (sortFacts facts).tail).filterMap (overlapAt schoolName) := by
    unfold reconcileSchool
    cases hs : sortFacts facts with
    | nil => simp
    | cons f rest => simpa using walkRanges_snd schoolName rest f
  constructor
  · intro g hg
    rw [hgaps] at hg
    obtain ⟨pc, hpc, heq⟩ := List.mem_filterMap.mp hg
    unfold gapAt at heq
    split_ifs at heq with hcond
    cases heq
    dsimp only
    omega
  · intro o ho
    rw [hovers] at ho
    obtain ⟨pc, hpc, heq⟩ := List.mem_filterMap.mp ho
    have hcurr : pc.2 ∈ sortFacts facts := by
      have h2 := (List.of_mem_zip hpc).2
      exact List.tail_sublist (sortFacts facts) |>.subset h2
    have hc := hmem pc.2 hcurr
    unfold overlapAt at heq
    split_ifs at heq with hcond
    cases heq
    dsimp only
    omega

theorem spans_well_ordered_witness :
    (∀ f ∈ [(⟨2, 2000, 2005, [], []⟩ : SchoolFact), ⟨3, 2007, 2010, [], []⟩,
        ⟨4, 2004, 2006, [], []⟩], f.start ≤ f.endYear) ∧
    ((∀ g ∈ (reconcileSchool ['L']
        [(⟨2, 2000, 2005, [], []⟩ : SchoolFact), ⟨3, 2007, 2010, [], []⟩,
          ⟨4, 2004, 2006, [], []⟩]).1, g.fromYear ≤ g.toYear) ∧
     (∀ o ∈ (reconcileSchool ['L']
        [(⟨2, 2000, 2005, [], []⟩ : SchoolFact), ⟨3, 2007, 2010, [], []⟩,
          ⟨4, 2004, 2006, [], []⟩]).2, o.overlapStart ≤ o.overlapEnd)) :=
  ⟨by decide,
   spans_well_ordered ['L']
     [(⟨2, 2000, 2005, [], []⟩ : SchoolFact), ⟨3, 2007, 2010, [], []⟩,
       ⟨4, 2004, 2006, [], []⟩] (by decide)⟩

/-! ### Claim C5: line numbers from row positions -/

/-- Helper: classifying a row with a non-empty school name and a parsable
type appends the corresponding fact to that school's list, whatever the
link field holds. -/
theorem classifyRow_fact_mem (cy n : Nat) (r : Row) (st : ScanState) (pr : YearRange)
    (hname : jsTrim r.schoolName ≠ [])
    (hparse : parseType cy (jsTrim r.type) = some pr) :
    (⟨n, pr.start, pr.endYear, jsTrim r.type, jsTrim r.link⟩ : SchoolFact) ∈
      (mapGet (classifyRow cy n r st).ranges (jsTrim r.schoolName)).getD [] := by
  have htype : jsTrim r.type ≠ [] := by
    intro h0
    rw [h0, parseType_nil] at hparse
    cases hparse
  simp only [classifyRow]
  by_cases hlink : jsTrim r.link = []
  · rw [if_neg hname, if_pos hlink, if_neg htype, hparse]
    simp [mapGet_mapSet_self]
  · rw [if_neg hname, if_neg hlink, if_neg htype, hparse]
    simp [mapGet_mapSet_self]

/-- Helper: classification only ever appends to `missingSchoolName`. -/
theorem classifyRow_name_mono (cy n : Nat) (r : Row) (st : ScanState) (x : NameIssue)
    (hx : x ∈ st.issues.missingSchoolName) :
    x ∈ (classifyRow cy n r st).issues.missingSchoolName := by
  simp only [classifyRow]
  split_ifs <;> try simp [hx]
  all_goals (split <;> simp [hx])

/-- Helper: classification only ever appends to a school's fact list. -/
theorem classifyRow_fact_mono (cy n : Nat) (r : Row) (st : ScanState)
    (k : List Char) (f : SchoolFact)
    (hf : f ∈ (mapGet st.ranges k).getD []) :
    f ∈ (mapGet (classifyRow cy n r st).ranges k).getD [] := by
  simp only [classifyRow]
  split_ifs <;> try exact hf
  all_goals split
  all_goals try exact hf
  all_goals {
    by_cases hk : jsTrim r.schoolName = k
    · rw [hk, mapGet_mapSet_self]
      simp only [Option.getD_some]
      exact List.mem_append_left _ hf
    · rw [mapGet_mapSet_ne _ _ _ _ (fun hh => hk hh.symm)]
      exact hf
  }

/-- Helper: the row loop only ever appends to `missingSchoolName`. -/
theorem processRowsAux_name_mono (cy : Nat) (rows : List Row) :
    ∀ (idx : Nat) (st : ScanState) (x : NameIssue),
      x ∈ st.issues.missingSchoolName →
      x ∈ (processRowsAux cy idx rows st).issues.missingSchoolName := by
  induction rows with
  | nil => intro idx st x hx; exact hx
  | cons r rs ih =>
    intro idx st x hx
    exact ih (idx + 1) (classifyRow cy (idx + 2) r st) x
      (classifyRow_name_mono cy (idx + 2) r st x hx)

/-- Helper: the row loop only ever appends to a school's fact list. -/
theorem processRowsAux_fact_mono (cy : Nat) (rows : List Row) :
    ∀ (idx : Nat) (st : ScanState) (k : List Char) (f : SchoolFact),
      f ∈ (mapGet st.ranges k).getD [] →
      f ∈ (mapGet (processRowsAux cy idx rows st).ranges k).getD [] := by
  induction rows with
  | nil => intro idx st k f hf; exact hf
  | cons r rs ih =>
    intro idx st k f hf
    exact ih (idx + 1) (classifyRow cy (idx + 2) r st) k f
      (classifyRow_fact_mono cy (idx + 2) r st k f hf)

/-- Helper: the row at 0-based loop position `i` contributes its
missingSchoolName issue at line `idx + i + 2`. -/
theorem processRowsAux_name_line (cy : Nat) (rows : List Row) :
    ∀ (idx : Nat) (st : ScanState) (i : Nat) (h : i < rows.length),
      jsTrim (rows.get ⟨i, h⟩).schoolName = [] →
      (⟨idx + i + 2⟩ : NameIssue) ∈
        (processRowsAux cy idx rows st).issues.missingSchoolName := by
  induction rows with
  | nil => intro idx st i h; exact absurd h (by simp)
  | cons r rs ih =>
    intro idx st i h hname
    cases i with
    | zero =>
      apply processRowsAux_name_mono cy rs (idx + 1) (classifyRow cy (idx + 2) r st)
      have he : (classifyRow cy (idx + 2) r st).issues.missingSchoolName =
          st.issues.missingSchoolName ++ [⟨idx + 2⟩] := by
        simp only [classifyRow]
        rw [if_pos (by simpa using hname)]
      rw [he]
      simp
    | succ j =>
      have hr := ih (idx + 1) (classifyRow cy (idx + 2) r st) j (by simpa using h)
        (by simpa using hname)
      convert hr using 2
      omega

/-- Helper: the row at 0-based loop position `i`, when well formed, contributes
its fact at line `idx + i + 2`. -/
theorem processRowsAux_fact_line (cy : Nat) (rows : List Row) :
    ∀ (idx : Nat) (st : ScanState) (i : Nat) (h : i < rows.length) (pr : YearRange),
      jsTrim (rows.get ⟨i, h⟩).schoolName ≠ [] →
      parseType cy (jsTrim (rows.get ⟨i, h⟩).type) = some pr →
      (⟨idx + i + 2, pr.start, pr.endYear, jsTrim (rows.get ⟨i, h⟩).type,
        jsTrim (rows.get ⟨i, h⟩).link⟩ : SchoolFact) ∈
        (mapGet (processRowsAux cy idx rows st).ranges
          (jsTrim (rows.get ⟨i, h⟩).schoolName)).getD [] := by
  induction rows with
  | nil => intro idx st i h; exact absurd h (by simp)
  | cons r rs ih =>
    intro idx st i h pr hname hparse
    cases i with
    | zero =>
      apply processRowsAux_fact_mono cy rs (idx + 1) (classifyRow cy (idx + 2) r st)
      have := classifyRow_fact_mem cy (idx + 2) r st pr (by simpa using hname)
        (by simpa using hparse)
      simpa using this
    | succ j =>
      have hr := ih (idx + 1) (classifyRow cy (idx + 2) r st) j (by simpa using h) pr
        (by simpa using hname) (by simpa using hparse)
      convert hr using 3
      omega

/-- C5 counterexample: the first data row sits at 0-based position 0, yet its
recorded line number is 2, not position + 1 = 1, refuting the claimed formula
`lineNumber = position + 1` for the stated 0-based positions. -/
theorem lineNumber_not_position_plus_one :
    (processRows 2026 [⟨[], ['x'], []⟩]).issues.missingSchoolName = [⟨2⟩] ∧
    (2 : Nat) ≠ 0 + 1 := by
  decide

/-- C5 (amended): the line number attached to a row's issues and facts is
derived from the row's 0-based position as `lineNumber = position + 2`
(equivalently, 1-based position + 1), so the first data row, at position 0,
is reported as line 2, the header occupying line 1. -/
theorem lineNumber_from_position (cy : Nat) (rows : List Row) (i : Nat)
    (h : i < rows.length) :
    (jsTrim (rows.get ⟨i, h⟩).schoolName = [] →
      (⟨i + 2⟩ : NameIssue) ∈ (processRows cy rows).issues.missingSchoolName) ∧
    (∀ pr : YearRange, jsTrim (rows.get ⟨i, h⟩).schoolName ≠ [] →
      parseType cy (jsTrim (rows.get ⟨i, h⟩).type) = some pr →
      (⟨i + 2, pr.start, pr.endYear, jsTrim (rows.get ⟨i, h⟩).type,
        jsTrim (rows.get ⟨i, h⟩).link⟩ : SchoolFact) ∈
        (mapGet (processRows cy rows).ranges
          (jsTrim (rows.get ⟨i, h⟩).schoolName)).getD []) := by
  constructor
  · intro hname
    have := processRowsAux_name_line cy rows 0 ScanState.empty i h hname
    simpa using this
  · intro pr hname hparse
    have := processRowsAux_fact_line cy rows 0 ScanState.empty i h pr hname hparse
    simpa using this

theorem lineNumber_from_position_witness :
    (0 < ([(⟨"A".toList, ['x'], "2000-2001".toList⟩ : Row)] : List Row).length) ∧
    ((jsTrim ([(⟨"A".toList, ['x'], "2000-2001".toList⟩ : Row)].get
        ⟨0, by decide⟩).schoolName = [] →
      (⟨0 + 2⟩ : NameIssue) ∈
        (processRows 2026 [⟨"A".toList, ['x'], "2000-2001".toList⟩]).issues.missingSchoolName) ∧
    (∀ pr : YearRange,
      jsTrim ([(⟨"A".toList, ['x'], "2000-2001".toList⟩ : Row)].get
        ⟨0, by decide⟩).schoolName ≠ [] →
      parseType 2026 (jsTrim ([(⟨"A".toList, ['x'], "2000-2001".toList⟩ : Row)].get
        ⟨0, by decide⟩).type) = some pr →
      (⟨0 + 2, pr.start, pr.endYear,
        jsTrim ([(⟨"A".toList, ['x'], "2000-2001".toList⟩ : Row)].get ⟨0, by decide⟩).type,
        jsTrim ([(⟨"A".toList, ['x'], "2000-2001".toList⟩ : Row)].get ⟨0, by decide⟩).link⟩ :
          SchoolFact) ∈
        (mapGet (processRows 2026 [⟨"A".toList, ['x'], "2000-2001".toList⟩]).ranges
          (jsTrim ([(⟨"A".toList, ['x'], "2000-2001".toList⟩ : Row)].get
            ⟨0, by decide⟩).schoolName)).getD [])) :=
  ⟨by decide,
   lineNumber_from_position 2026 [⟨"A".toList, ['x'], "2000-2001".toList⟩] 0 (by decide)⟩

/-! ### Claims C3, C4: the range parser -/

/-- Every character of the list is whitespace. -/
def AllWS (l : List Char) : Prop := ∀ c ∈ l, isWS c = true

instance (l : List Char) : Decidable (AllWS l) := by
  unfold AllWS
  infer_instance

/-- The string matches the given pattern word case-insensitively, character by
character. -/
def CIMatch : List Char → List Char → Prop
  | [], [] => True
  | p :: ps, c :: cs => ciEq c p = true ∧ CIMatch ps cs
  | _, _ => False

/-- The string consists of exactly four decimal digits whose value is `y`. -/
def Digits4 (ds : List Char) (y : Nat) : Prop :=
  ∃ a b c d, ds = [a, b, c, d] ∧
    (isDigitCh a = true ∧ isDigitCh b = true ∧ isDigitCh c = true ∧ isDigitCh d = true) ∧
    y = ((digitVal a * 10 + digitVal b) * 10 + digitVal c) * 10 + digitVal d

/-- Resolution of the second endpoint of a bounded range: a literal year, or
the current year for the literal `present`. -/
def resolveEnd (cy : Nat) : Option Nat → Nat
  | some y => y
  | none => cy

/-- The head of the list, if any, is not whitespace. -/
def HeadNotWS (r : List Char) : Prop := ∀ c cs, r = c :: cs → isWS c = false

theorem take4Digits_complete {ds : List Char} {y : Nat} (h : Digits4 ds y)
    (rest : List Char) : take4Digits (ds ++ rest) = some (y, rest) := by
  obtain ⟨a, b, c, d, rfl, ⟨ha, hb, hc, hd⟩, rfl⟩ := h
  simp [take4Digits, ha, hb, hc, hd]

theorem take4Digits_sound {t r : List Char} {y : Nat}
    (h : take4Digits t = some (y, r)) : ∃ ds, t = ds ++ r ∧ Digits4 ds y := by
  cases t with
  | nil => cases h
  | cons a t1 =>
    cases t1 with
    | nil => cases h
    | cons b t2 =>
      cases t2 with
      | nil => cases h
      | cons c t3 =>
        cases t3 with
        | nil => cases h
        | cons d rest =>
          simp only [take4Digits] at h
          split_ifs at h with hdig
          injection h with h1
          injection h1 with hy hr
          subst hr
          simp only [Bool.and_eq_true] at hdig
          exact ⟨[a, b, c, d], rfl,
            ⟨a, b, c, d, rfl, ⟨hdig.1.1.1, hdig.1.1.2, hdig.1.2, hdig.2⟩, hy.symm⟩⟩

theorem take4Digits_none_of_head {t : List Char}
    (h : ∀ c cs, t = c :: cs → isDigitCh c = false) : take4Digits t = none := by
  cases t with
  | nil => rfl
  | cons a t1 =>
    cases t1 with
    | nil => rfl
    | cons b t2 =>
      cases t2 with
      | nil => rfl
      | cons c t3 =>
        cases t3 with
        | nil => rfl
        | cons d rest => simp [take4Digits, h a _ rfl]

theorem stripCI_complete {patt : List Char} :
    ∀ {p : List Char}, CIMatch patt p → ∀ r, stripCI patt (p ++ r) = some r := by
  induction patt with
  | nil =>
    intro p h r
    cases p with
    | nil => rfl
    | cons c cs => exact (h : False).elim
  | cons p0 ps ih =>
    intro p h r
    cases p with
    | nil => exact (h : False).elim
    | cons c cs =>
      obtain ⟨hc, htl⟩ := h
      simp [stripCI, hc, ih htl r]

theorem stripCI_sound {patt : List Char} :
    ∀ {t r : List Char}, stripCI patt t = some r → ∃ p, t = p ++ r ∧ CIMatch patt p := by
  induction patt with
  | nil =>
    intro t r h
    injection h with h1
    exact ⟨[], by simp [h1], trivial⟩
  | cons p0 ps ih =>
    intro t r h
    cases t with
    | nil => cases h
    | cons c cs =>
      unfold stripCI at h
      split_ifs at h with hc
      obtain ⟨p1, rfl, hm⟩ := ih h
      exact ⟨c :: p1, rfl, hc, hm⟩

theorem stripWS1_sound {t r : List Char} (h : stripWS1 t = some r) :
    ∃ w, t = w ++ r ∧ w ≠ [] ∧ AllWS w := by
  cases t with
  | nil => cases h
  | cons c cs =>
    simp only [stripWS1] at h
    split_ifs at h with hc
    injection h with h1
    refine ⟨c :: cs.takeWhile isWS, ?_, by simp, ?_⟩
    · rw [← h1]
      simp [List.takeWhile_append_dropWhile]
    · intro x hx
      rcases List.mem_cons.mp hx with rfl | hx2
      · exact hc
      · exact List.mem_takeWhile_imp hx2

theorem stripWS1_complete {w : List Char} (hw : w ≠ []) (hall : AllWS w)
    {r : List Char} (hr : HeadNotWS r) : stripWS1 (w ++ r) = some r := by
  cases w with
  | nil => exact absurd rfl hw
  | cons c cs =>
    have hc : isWS c = true := hall c (List.mem_cons_self c cs)
    simp only [List.cons_append, stripWS1, hc, if_true]
    rw [dropWhile_append_allWS fun x hx => hall x (List.mem_cons_of_mem c hx)]
    rw [dropWhile_headNotWS hr]

theorem headNotWS_of_ciMatch {p0 : Char} {ps s : List Char}
    (h : CIMatch (p0 :: ps) s) (hp : isWS (lcase p0) = false) (r : List Char) :
    HeadNotWS (s ++ r) := by
  cases s with
  | nil => exact (h : False).elim
  | cons c cs =>
    intro c0 cs0 heq
    injection heq with h1 h2
    subst h1
    exact not_ws_of_ciEq h.1 hp

theorem headNotWS_of_digits4 {ds : List Char} {y : Nat} (h : Digits4 ds y) :
    HeadNotWS ds := by
  obtain ⟨a, b, c, d, rfl, ⟨ha, hb2, hc2, hd2⟩, _⟩ := h
  intro c0 cs0 heq
  injection heq with h1 h2
  subst h1
  exact not_ws_of_digit ha

theorem headNotWS_of_ciMatch_plain {p0 : Char} {ps s : List Char}
    (h : CIMatch (p0 :: ps) s) (hp : isWS (lcase p0) = false) : HeadNotWS s := by
  cases s with
  | nil => exact (h : False).elim
  | cons c cs =>
    intro c0 cs0 heq
    injection heq with h1 h2
    subst h1
    exact not_ws_of_ciEq h.1 hp

theorem headNotDigit_of_ciMatch {p0 : Char} {ps s : List Char}
    (h : CIMatch (p0 :: ps) s) (hp : isDigitCh (lcase p0) = false) :
    ∀ c cs, s = c :: cs → isDigitCh c = false := by
  cases s with
  | nil => exact (h : False).elim
  | cons c cs =>
    intro c0 cs0 heq
    injection heq with h1 h2
    subst h1
    exact not_digit_of_ciEq h.1 hp

/-- Completeness of the bounded-range regex model: any trimmed input of the
bounded shape is matched, with the captured values. -/
theorem matchBounded_complete {s ds w1 w2 tail : List Char} {y1 : Nat}
    {e : Option Nat}
    (hds : Digits4 ds y1) (hw1 : AllWS w1) (hw2 : AllWS w2)
    (htail : (∃ y2, Digits4 tail y2 ∧ e = some y2) ∨
      (CIMatch presentWord tail ∧ e = none))
    (heq : s = ds ++ (w1 ++ ('-' :: (w2 ++ tail)))) :
    matchBounded s = some (y1, e) := by
  subst heq
  have hdw : List.dropWhile isWS ('-' :: (w2 ++ tail)) = '-' :: (w2 ++ tail) := by
    have hdash : isWS '-' = false := by decide
    simp [List.dropWhile_cons, hdash]
  rcases htail with ⟨y2, hdtail, rfl⟩ | ⟨hptail, rfl⟩
  · have ht4 : take4Digits tail = some (y2, []) := by
      have h0 := take4Digits_complete hdtail []
      rwa [List.append_nil] at h0
    have hhead : HeadNotWS tail := headNotWS_of_digits4 hdtail
    simp only [matchBounded, take4Digits_complete hds, dropWhile_append_allWS hw1,
      hdw, dropWhile_append_allWS hw2, dropWhile_headNotWS hhead, ht4]
  · have hp : presentWord = 'p' :: "resent".toList := by decide
    rw [hp] at hptail
    have hnone : take4Digits tail = none :=
      take4Digits_none_of_head (headNotDigit_of_ciMatch hptail (by decide))
    have hhead : HeadNotWS tail := headNotWS_of_ciMatch_plain hptail (by decide)
    have hstrip : stripCI presentWord tail = some [] := by
      have h0 := stripCI_complete (hp ▸ hptail) []
      rwa [List.append_nil] at h0
    simp only [matchBounded, take4Digits_complete hds, dropWhile_append_allWS hw1,
      hdw, dropWhile_append_allWS hw2, dropWhile_headNotWS hhead, hnone, hstrip]

/-- The historical form as the code accepts it: the three words separated by
one-or-more whitespace characters (case-insensitive), then four digits. -/
def BeforeForm (t : List Char) (y : Nat) : Prop :=
  ∃ pIn w1 pSchool w2 pBefore w3 ds,
    t = pIn ++ (w1 ++ (pSchool ++ (w2 ++ (pBefore ++ (w3 ++ ds))))) ∧
    CIMatch inWord pIn ∧ w1 ≠ [] ∧ AllWS w1 ∧
    CIMatch schoolWord pSchool ∧ w2 ≠ [] ∧ AllWS w2 ∧
    CIMatch beforeWord pBefore ∧ w3 ≠ [] ∧ AllWS w3 ∧
    Digits4 ds y

theorem matchBefore_complete {t : List Char} {y : Nat} (h : BeforeForm t y) :
    matchBefore t = some y := by
  obtain ⟨pIn, w1, pSchool, w2, pBefore, w3, ds, rfl, hIn, hw1ne, hw1, hSch, hw2ne,
    hw2, hBef, hw3ne, hw3, hds⟩ := h
  have hs : schoolWord = 's' :: "chool".toList := by decide
  have hb : beforeWord = 'b' :: "efore".toList := by decide
  have ht4 : take4Digits ds = some (y, []) := by
    have h0 := take4Digits_complete hds []
    rwa [List.append_nil] at h0
  unfold matchBefore
  rw [stripCI_complete hIn, Option.some_bind]
  rw [stripWS1_complete hw1ne hw1 (headNotWS_of_ciMatch (hs ▸ hSch) (by decide) _),
    Option.some_bind]
  rw [stripCI_complete hSch, Option.some_bind]
  rw [stripWS1_complete hw2ne hw2 (headNotWS_of_ciMatch (hb ▸ hBef) (by decide) _),
    Option.some_bind]
  rw [stripCI_complete hBef, Option.some_bind]
  rw [stripWS1_complete hw3ne hw3 (headNotWS_of_digits4 hds), Option.some_bind]
  rw [ht4]

theorem matchBefore_sound {t : List Char} {y : Nat} (h : matchBefore t = some y) :
    BeforeForm t y := by
  unfold matchBefore at h
  rw [Option.bind_eq_some] at h
  obtain ⟨r1, h1, h⟩ := h
  rw [Option.bind_eq_some] at h
  obtain ⟨r2, h2, h⟩ := h
  rw [Option.bind_eq_some] at h
  obtain ⟨r3, h3, h⟩ := h
  rw [Option.bind_eq_some] at h
  obtain ⟨r4, h4, h⟩ := h
  rw [Option.bind_eq_some] at h
  obtain ⟨r5, h5, h⟩ := h
  rw [Option.bind_eq_some] at h
  obtain ⟨r6, h6, h⟩ := h
  cases hv : take4Digits r6 with
  | none => rw [hv] at h; cases h
  | some p =>
    obtain ⟨y2, rr⟩ := p
    rw [hv] at h
    cases rr with
    | cons c cs => cases h
    | nil =>
      injection h with hy
      subst hy
      obtain ⟨ds, hdseq, hds⟩ := take4Digits_sound hv
      rw [List.append_nil] at hdseq
      subst hdseq
      obtain ⟨pIn, rfl, hIn⟩ := stripCI_sound h1
      obtain ⟨w1, hw1eq, hw1ne, hw1⟩ := stripWS1_sound h2
      obtain ⟨pSch, hseq, hSch⟩ := stripCI_sound h3
      obtain ⟨w2, hw2eq, hw2ne, hw2⟩ := stripWS1_sound h4
      obtain ⟨pBef, hbeq, hBef⟩ := stripCI_sound h5
      obtain ⟨w3, hw3eq, hw3ne, hw3⟩ := stripWS1_sound h6
      refine ⟨pIn, w1, pSch, w2, pBef, w3, r6, ?_, hIn, hw1ne, hw1, hSch, hw2ne, hw2,
        hBef, hw3ne, hw3, hds⟩
      rw [hw1eq, hseq, hw2eq, hbeq, hw3eq]

/-- C3: for every input whose trimmed text has the bounded form — four digits
Y1, optional whitespace, a hyphen, optional whitespace, then either four
digits Y2 or the case-insensitive literal `present` (which resolves to the
current year) — parseType returns the range (Y1, Y2) when Y1 <= Y2 and null
when Y1 > Y2. -/
theorem bounded_range_parse (cy : Nat) (s ds w1 w2 tail : List Char) (y1 : Nat)
    (e : Option Nat)
    (hds : Digits4 ds y1) (hw1 : AllWS w1) (hw2 : AllWS w2)
    (htail : (∃ y2, Digits4 tail y2 ∧ e = some y2) ∨
      (CIMatch presentWord tail ∧ e = none))
    (htrim : jsTrim s = ds ++ (w1 ++ ('-' :: (w2 ++ tail)))) :
    (y1 ≤ resolveEnd cy e → parseType cy s = some ⟨y1, resolveEnd cy e⟩) ∧
    (resolveEnd cy e < y1 → parseType cy s = none) := by
  have hmb : matchBounded (jsTrim s) = some (y1, e) :=
    matchBounded_complete hds hw1 hw2 htail htrim
  have hparse : parseType cy s =
      (if y1 ≤ resolveEnd cy e then some ⟨y1, resolveEnd cy e⟩ else none) := by
    cases e with
    | none => simp only [parseType, hmb, resolveEnd]
    | some y => simp only [parseType, hmb, resolveEnd]
  exact ⟨fun hle => by rw [hparse, if_pos hle],
         fun hlt => by rw [hparse, if_neg (by omega)]⟩

theorem bounded_range_parse_witness :
    (Digits4 "2000".toList 2000 ∧ AllWS [' '] ∧
      (∃ y2, Digits4 "2005".toList y2 ∧ (some 2005 : Option Nat) = some y2) ∧
      jsTrim "2000 - 2005".toList =
        "2000".toList ++ ([' '] ++ ('-' :: ([' '] ++ "2005".toList)))) ∧
    ((2000 ≤ resolveEnd 2026 (some 2005) →
        parseType 2026 "2000 - 2005".toList = some ⟨2000, resolveEnd 2026 (some 2005)⟩) ∧
     (resolveEnd 2026 (some 2005) < 2000 →
        parseType 2026 "2000 - 2005".toList = none)) :=
  ⟨⟨⟨'2', '0', '0', '0', by decide⟩, by decide,
      ⟨2005, ⟨'2', '0', '0', '5', by decide⟩, rfl⟩, by decide⟩,
   bounded_range_parse 2026 "2000 - 2005".toList "2000".toList [' '] [' ']
     "2005".toList 2000 (some 2005) ⟨'2', '0', '0', '0', by decide⟩ (by decide)
     (by decide) (Or.inl ⟨2005, ⟨'2', '0', '0', '5', by decide⟩, rfl⟩) (by decide)⟩

/-- The spec's stricter reading of the historical form, stated from its words:
the exact phrase, case-insensitive, with SINGLE SPACES between the words,
then a four-digit year. -/
def specSingleSpacedBefore (t : List Char) : Option Nat :=
  (stripCI inWord t).bind fun r1 =>
    match r1 with
    | ' ' :: r2 =>
      (stripCI schoolWord r2).bind fun r3 =>
        match r3 with
        | ' ' :: r4 =>
          (stripCI beforeWord r4).bind fun r5 =>
            match r5 with
            | ' ' :: r6 =>
              match take4Digits r6 with
              | some (y, []) => some y
              | _ => none
            | _ => none
        | _ => none
    | _ => none

/-- C4 counterexample: on input with a double space between "In" and "School"
the code still parses the historical form (the regex uses one-or-more
whitespace), although the text matches neither the spec's single-spaced
phrase nor the bounded form, so under the claim parseType would return null. -/
theorem before_single_space_counterexample :
    parseType 2026 "In  School Before 1995".toList = some ⟨1900, 1995⟩ ∧
    specSingleSpacedBefore (jsTrim "In  School Before 1995".toList) = none ∧
    matchBounded (jsTrim "In  School Before 1995".toList) = none := by
  decide

/-- C4 (amended): on inputs not matching the bounded form, parseType succeeds
exactly when the trimmed text is the case-insensitive phrase "In School
Before YYYY" with ONE OR MORE whitespace characters between the words and
YYYY a four-digit year at least 1900, returning (1900, YYYY); for YYYY below
1900, and for any text matching neither form, it returns null. -/
theorem before_form_parse (cy : Nat) (s : List Char)
    (hnb : matchBounded (jsTrim s) = none) :
    (∀ y, BeforeForm (jsTrim s) y →
      (1900 ≤ y → parseType cy s = some ⟨1900, y⟩) ∧
      (y < 1900 → parseType cy s = none)) ∧
    (∀ r : YearRange, parseType cy s = some r →
      ∃ y, BeforeForm (jsTrim s) y ∧ 1900 ≤ y ∧ r = ⟨1900, y⟩) := by
  constructor
  · intro y hbf
    have hmb := matchBefore_complete hbf
    constructor
    · intro hy
      simp only [parseType, hnb, hmb, if_pos hy]
    · intro hy
      simp only [parseType, hnb, hmb]
      rw [if_neg (by omega)]
  · intro r hr
    simp only [parseType, hnb] at hr
    cases hv : matchBefore (jsTrim s) with
    | none => rw [hv] at hr; cases hr
    | some y =>
      rw [hv] at hr
      dsimp only at hr
      split_ifs at hr with h1900
      injection hr with hr1
      exact ⟨y, matchBefore_sound hv, h1900, hr1.symm⟩

theorem before_form_parse_witness :
    matchBounded (jsTrim "In School Before 1995".toList) = none ∧
    ((∀ y, BeforeForm (jsTrim "In School Before 1995".toList) y →
      (1900 ≤ y → parseType 2026 "In School Before 1995".toList = some ⟨1900, y⟩) ∧
      (y < 1900 → parseType 2026 "In School Before 1995".toList = none)) ∧
    (∀ r : YearRange, parseType 2026 "In School Before 1995".toList = some r →
      ∃ y, BeforeForm (jsTrim "In School Before 1995".toList) y ∧ 1900 ≤ y ∧
        r = ⟨1900, y⟩)) :=
  ⟨by decide, before_form_parse 2026 "In School Before 1995".toList (by decide)⟩

end TranscriptCsv
